import Mathlib

/-!
Shallow embedding of the to-do application's task store and persistence
codec (src/todo-app/main.cpp).  Machine integers (C++ int and time_t)
are modelled as unbounded Int (no claim depends on overflow), the
character stream of the task file is a List Char, and std::cerr
messages are collected in a List String.
-/

namespace TodoApp

/-- One task record: the per-instance fields of class Task
(main.cpp:116-120).  The priority field holds the enum's underlying
integer value (HIGHEST = 1 .. LOWEST = 5); out-of-range values are
representable, exactly as a static_cast to the enum permits in C++. -/
structure Task where
  id : Int
  description : List Char
  priority : Int
  completed : Bool
  dueDate : Int
deriving DecidableEq

/-- The class-level state of Task: static int nextId and
static vector<Task> tasks (main.cpp:122-123, 393-394). -/
structure Store where
  nextId : Int
  tasks : List Task
deriving DecidableEq

/-- Task::validateTask (main.cpp:126-136): the description must be
non-empty and the priority within HIGHEST = 1 .. LOWEST = 5. -/
def validateTask (desc : List Char) (p : Int) : Bool :=
  !desc.isEmpty && (decide (1 ≤ p) && decide (p ≤ 5))

/-- Task::addTask (main.cpp:230-234).  The Task constructor
(main.cpp:140-142) assigns id = nextId++ and completed = false. -/
def addTask (s : Store) (desc : List Char) (p du : Int) : Store :=
  if validateTask desc p then
    { nextId := s.nextId + 1
      tasks := s.tasks ++ [Task.mk s.nextId desc p false du] }
  else s

/-- Task::deleteTask (main.cpp:237-245): erase/remove_if of every task
whose id matches. -/
def deleteTask (s : Store) (i : Int) : Store :=
  { s with tasks := s.tasks.filter (fun t => t.id != i) }

/-- The unconditional tail of Task::updateTask (main.cpp:272-277):
completed and dueDate, when provided, are applied without validation. -/
def applyCompDue (t : Task) (oc : Option Bool) (odu : Option Int) : Task :=
  let t1 := match oc with
    | none => t
    | some c => { t with completed := c }
  match odu with
  | none => t1
  | some du => { t1 with dueDate := du }

/-- The priority stage of Task::updateTask (main.cpp:264-271): the
(possibly already updated) description is validated against the new
priority; on failure the function returns at once, keeping whatever was
already applied. -/
def applyPrioStage (t : Task) (op : Option Int) (oc : Option Bool) (odu : Option Int) : Task :=
  match op with
  | none => applyCompDue t oc odu
  | some p =>
      if validateTask t.description p then applyCompDue { t with priority := p } oc odu
      else t

/-- The field updates Task::updateTask performs on the matched record
(main.cpp:256-277): description first (validated against the existing
priority), then priority, then completed, then dueDate; each failed
validation returns immediately. -/
def updateFields (t : Task) (od : Option (List Char)) (op : Option Int)
    (oc : Option Bool) (odu : Option Int) : Task :=
  match od with
  | none => applyPrioStage t op oc odu
  | some d =>
      if validateTask d t.priority then applyPrioStage { t with description := d } op oc odu
      else t

/-- The for-loop of Task::updateTask (main.cpp:254-280): only the first
task with a matching id is updated; the rest of the vector is untouched. -/
def updateTaskList (i : Int) (od : Option (List Char)) (op : Option Int)
    (oc : Option Bool) (odu : Option Int) : List Task → List Task
  | [] => []
  | t :: ts =>
      if t.id = i then updateFields t od op oc odu :: ts
      else t :: updateTaskList i od op oc odu ts

/-- Task::updateTask (main.cpp:248-282) acting on the store. -/
def updateTask (s : Store) (i : Int) (od : Option (List Char)) (op : Option Int)
    (oc : Option Bool) (odu : Option Int) : Store :=
  { s with tasks := updateTaskList i od op oc odu s.tasks }

/-! ### The character-stream primitives used by the load loop -/

/-- The whitespace class skipped by formatted extraction (operator>>). -/
def isWsChar (c : Char) : Bool :=
  c = ' ' || c = '\t' || c = '\n' || c = '\r'

/-- Leading-whitespace skip performed by operator>>. -/
def skipWs (s : List Char) : List Char := s.dropWhile isWsChar

/-- Decimal-digit accumulation of num_get: consume the maximal run of
leading digits. -/
def parseDigitsAcc : Nat → List Char → Nat × List Char
  | acc, [] => (acc, [])
  | acc, c :: cs =>
      if c.isDigit then parseDigitsAcc (acc * 10 + (c.toNat - 48)) cs
      else (acc, c :: cs)

/-- num_get digit phase: fails (failbit) when no digit is present. -/
def digitsOrFail (s : List Char) : Option (Nat × List Char) :=
  match s with
  | [] => none
  | c :: _ => if c.isDigit then some (parseDigitsAcc 0 s) else none

/-- Signed decimal integer extraction after the whitespace skip:
an optional sign followed by at least one digit. -/
def parseSigned (s : List Char) : Option (Int × List Char) :=
  match s with
  | [] => none
  | c :: cs =>
      if c = '-' then
        match digitsOrFail cs with
        | none => none
        | some (n, r) => some (-(n : Int), r)
      else if c = '+' then
        match digitsOrFail cs with
        | none => none
        | some (n, r) => some ((n : Int), r)
      else
        match digitsOrFail (c :: cs) with
        | none => none
        | some (n, r) => some ((n : Int), r)

/-- file >> (int/time_t): skip whitespace, then extract a signed decimal
integer; none models failbit.  A some result with an empty remainder is
the case in which extraction also reached end-of-file (eofbit). -/
def readInt (s : List Char) : Option (Int × List Char) := parseSigned (skipWs s)

/-- getline(file, desc, '|') (main.cpp:167): characters up to the first
delimiter, which is consumed; none models reaching end-of-file without
a delimiter, after which file.good() is false. -/
def splitAtDelim : List Char → Option (List Char × List Char)
  | [] => none
  | c :: cs =>
      if c = '|' then some ([], cs)
      else
        match splitAtDelim cs with
        | none => none
        | some (d, r) => some (c :: d, r)

/-- file.ignore(max, '\n') (main.cpp:184): drop characters through the
first newline (or the whole stream when none remains). -/
def ignoreThroughNl : List Char → List Char
  | [] => []
  | c :: cs => if c = '\n' then cs else ignoreThroughNl cs

/-! ### The load loop -/

/-- The while-loop of Task::loadTasksFromFile (main.cpp:156-197),
parameterised by loop-iteration fuel so that the definition is
structurally recursive.  Every iteration that continues consumes at
least the '|' character, so any fuel exceeding the stream length
reproduces the unbounded loop.  Any !file.good() check (getline without
a delimiter, a failed integer extraction, or extraction that reached
end-of-file) breaks out of the loop, abandoning the rest of the stream.
Returns the tasks pushed and the cerr diagnostics, threading the id
counter nid (the static nextId read by the Task constructor). -/
def loadLoop : Nat → List Char → Int → List Task × List String
  | 0, _, _ => ([], [])
  | fuel + 1, s, nid =>
      if s = [] then ([], [])
      else
        match splitAtDelim s with
        | none => ([], [])
        | some (d, r0) =>
          match readInt r0 with
          | none => ([], [])
          | some (p, r1) =>
            if r1 = [] then ([], [])
            else
              match readInt r1 with
              | none => ([], [])
              | some (comp, r2) =>
                if r2 = [] then ([], [])
                else
                  match readInt r2 with
                  | none => ([], [])
                  | some (du, r3) =>
                    if r3 = [] then ([], [])
                    else
                      let r4 := ignoreThroughNl r3
                      if d.isEmpty || decide (p < 1) || decide (5 < p) then
                        let q := loadLoop fuel r4 nid
                        (q.1, "Skipping invalid task from file." :: q.2)
                      else
                        let q := loadLoop fuel r4 (nid + 1)
                        (Task.mk nid d p (comp != 0) du :: q.1, q.2)

/-- The maxID scan after the load loop (main.cpp:201-205). -/
def maxId (ts : List Task) : Int :=
  ts.foldl (fun m t => if t.id > m then t.id else m) 0

/-- Task::loadTasksFromFile (main.cpp:147-206).  file = none models a
path that cannot be opened: the function returns immediately, without
clearing the collection and without emitting a message.  Otherwise the
collection is cleared, the stream is parsed, and nextId is recomputed
as maxID + 1 over the loaded tasks. -/
def loadTasksFromFile (s : Store) (file : Option (List Char)) : Store × List String :=
  match file with
  | none => (s, [])
  | some content =>
      let q := loadLoop (content.length + 1) content s.nextId
      ({ nextId := maxId q.1 + 1, tasks := q.1 }, q.2)

/-! ### Serialization (save) -/

/-- Decimal digits of n (most significant first, empty for 0), with
fuel n + 1 so the definition is structurally recursive. -/
def natDigitsAux : Nat → Nat → List Char
  | 0, _ => []
  | fuel + 1, n =>
      if n = 0 then []
      else natDigitsAux fuel (n / 10) ++ [Char.ofNat (48 + n % 10)]

/-- Decimal digits of n, most significant first (empty for 0). -/
def natDigits (n : Nat) : List Char := natDigitsAux (n + 1) n

/-- Decimal rendering of a natural number, as operator<< produces. -/
def serializeNat (n : Nat) : List Char := if n = 0 then ['0'] else natDigits n

/-- Decimal rendering of an integer, as operator<< produces. -/
def serializeInt (i : Int) : List Char :=
  if i < 0 then '-' :: serializeNat (-i).toNat else serializeNat i.toNat

/-- One line of the persisted format,
description|priority completed dueDate followed by a newline
(main.cpp:221-224), with the three trailing fields as integers. -/
def mkLine (d : List Char) (p comp du : Int) : List Char :=
  d ++ '|' :: (serializeInt p ++ ' ' :: (serializeInt comp ++ ' ' :: (serializeInt du ++ ['\n'])))

/-- The line Task::saveTasksToFile writes for one task: the bool
completed prints as 1 or 0 (boolalpha is off). -/
def serializeTask (t : Task) : List Char :=
  mkLine t.description t.priority (if t.completed then 1 else 0) t.dueDate

/-- The for-loop of Task::saveTasksToFile (main.cpp:216-225): each task
is re-validated; an invalid task is skipped with a cerr message, a valid
one is appended to the output stream. -/
def saveLoop : List Task → List Char × List String
  | [] => ([], [])
  | t :: ts =>
      let q := saveLoop ts
      if validateTask t.description t.priority then (serializeTask t ++ q.1, q.2)
      else
        (q.1,
          ("Error: Invalid Task with ID " ++ (serializeInt t.id).asString ++ " - not saved.")
            :: q.2)

/-- Task::saveTasksToFile (main.cpp:209-227).  canOpen = false models a
destination that cannot be opened for writing: an error is reported and
nothing is written.  The store itself is only read.  Result: the
(unchanged) store, the file content written (none when the open failed),
and the cerr messages. -/
def saveTasksToFile (s : Store) (canOpen : Bool) : Store × Option (List Char) × List String :=
  if canOpen then (s, some (saveLoop s.tasks).1, (saveLoop s.tasks).2)
  else (s, none, ["Error: Unable to open file for saving."])

/-! ### Queries -/

/-- The counting loop of Task::displayCompletionPercentage
(main.cpp:379-384). -/
def completedCount (ts : List Task) : Nat := ts.countP (fun t => t.completed)

/-- Task::displayCompletionPercentage (main.cpp:374-388).  The C++
double arithmetic is modelled in exact rational arithmetic; at the
points the specification names (an empty collection, and 1 completed of
4) the double computation is exact, so the models agree there. -/
def displayCompletionPercentage (s : Store) : ℚ :=
  if s.tasks.isEmpty then 0
  else ((completedCount s.tasks : ℚ) / (s.tasks.length : ℚ)) * 100

/-- The comparator passed to std::sort by Task::sortTasksByPriority
(main.cpp:320-326). -/
def prioLess (asc : Bool) (a b : Task) : Bool :=
  if asc then decide (a.priority < b.priority) else decide (b.priority < a.priority)

/-- The comparator passed to std::sort by Task::sortTasksByDueDate
(main.cpp:329-335). -/
def dueLess (asc : Bool) (a b : Task) : Bool :=
  if asc then decide (a.dueDate < b.dueDate) else decide (b.dueDate < a.dueDate)

/-- The guarantee the C++ standard gives for the std::sort call in
Task::sortTasksByPriority: the vector afterwards is some permutation of
its previous contents that is sorted with respect to the comparator
(for every earlier/later pair, the later element does not compare
before the earlier one).  std::sort — unlike std::stable_sort — says
nothing about the relative order of equivalent elements, so the call is
modelled as this relation between the old and the new contents. -/
def sortTasksByPrioritySpec (asc : Bool) (l l' : List Task) : Prop :=
  List.Perm l' l ∧ List.Pairwise (fun a b => prioLess asc b a = false) l'

/-- The corresponding guarantee for the std::sort call in
Task::sortTasksByDueDate. -/
def sortTasksByDueDateSpec (asc : Bool) (l l' : List Task) : Prop :=
  List.Perm l' l ∧ List.Pairwise (fun a b => dueLess asc b a = false) l'

/-! ### Derived notions used to state the claims -/

/-- k consecutive integers starting at n. -/
def intSeq : Int → Nat → List Int
  | _, 0 => []
  | n, k + 1 => n :: intSeq (n + 1) k

/-- Reassign ids sequentially from n, keeping every other field. -/
def reNumber : Int → List Task → List Task
  | _, [] => []
  | n, t :: ts => { t with id := n } :: reNumber (n + 1) ts

/-- The id-independent payload of a task: description, priority,
completed flag, due date. -/
def taskData (t : Task) : List Char × Int × Bool × Int :=
  (t.description, t.priority, t.completed, t.dueDate)

/-- Whether the stream starts with a decimal digit (what determines if
a further digit would be consumed, or extraction stops here). -/
def headIsDigit : List Char → Bool
  | [] => false
  | c :: _ => c.isDigit

/-- The id-assignment invariant: everything in the trace of assigned
ids, and every id in the live collection, is below the counter, and the
trace is strictly increasing (ids were handed out in increasing order,
none twice). -/
def IdInv (s : Store) (tr : List Int) : Prop :=
  (∀ i ∈ tr, i < s.nextId) ∧ (∀ t ∈ s.tasks, t.id < s.nextId) ∧ tr.Pairwise (· < ·)

/-- One state transition of the running program after start-up: the
store operations reachable from the interactive menu (main.cpp:430-628),
paired with the ghost trace of ids assigned so far.  A successful add
records the id it assigned; sorting is any outcome std::sort permits;
saving only reads the store. -/
inductive MenuStep : Store × List Int → Store × List Int → Prop where
  | addOk (s : Store) (tr : List Int) (d : List Char) (p du : Int) :
      validateTask d p = true →
      MenuStep (s, tr) (addTask s d p du, tr ++ [s.nextId])
  | addFail (s : Store) (tr : List Int) (d : List Char) (p du : Int) :
      validateTask d p = false →
      MenuStep (s, tr) (addTask s d p du, tr)
  | upd (s : Store) (tr : List Int) (i : Int) (od : Option (List Char))
      (op : Option Int) (oc : Option Bool) (odu : Option Int) :
      MenuStep (s, tr) (updateTask s i od op oc odu, tr)
  | del (s : Store) (tr : List Int) (i : Int) :
      MenuStep (s, tr) (deleteTask s i, tr)
  | sortP (s : Store) (tr : List Int) (asc : Bool) (l' : List Task) :
      sortTasksByPrioritySpec asc s.tasks l' →
      MenuStep (s, tr) ({ s with tasks := l' }, tr)
  | sortD (s : Store) (tr : List Int) (asc : Bool) (l' : List Task) :
      sortTasksByDueDateSpec asc s.tasks l' →
      MenuStep (s, tr) ({ s with tasks := l' }, tr)
  | save (s : Store) (tr : List Int) (b : Bool) :
      MenuStep (s, tr) ((saveTasksToFile s b).1, tr)

/-! ### Lemmas about digit serialization and extraction -/

theorem parseDigitsAcc_stop (acc : Nat) (r : List Char) (h : headIsDigit r = false) :
    parseDigitsAcc acc r = (acc, r) := by
  cases r with
  | nil => rfl
  | cons c cs =>
      simp only [headIsDigit] at h
      simp [parseDigitsAcc, h]

theorem digitChar_spec :
    ∀ m, m < 10 → (Char.ofNat (48 + m)).isDigit = true ∧ (Char.ofNat (48 + m)).toNat = 48 + m := by
  decide

theorem natDigitsAux_parse :
    ∀ fuel n acc rest, n < 10 ^ fuel →
      parseDigitsAcc acc (natDigitsAux fuel n ++ rest) =
        parseDigitsAcc (acc * 10 ^ (natDigitsAux fuel n).length + n) rest := by
  intro fuel
  induction fuel with
  | zero =>
      intro n acc rest h
      interval_cases n
      simp [natDigitsAux]
  | succ fuel ih =>
      intro n acc rest h
      by_cases h0 : n = 0
      · subst h0; simp [natDigitsAux]
      · have hdiv : n / 10 < 10 ^ fuel := by
          rw [Nat.div_lt_iff_lt_mul (by norm_num : (0:Nat) < 10)]
          rw [pow_succ] at h
          omega
        have hm : n % 10 < 10 := Nat.mod_lt _ (by norm_num)
        obtain ⟨hdig, htn⟩ := digitChar_spec (n % 10) hm
        simp only [natDigitsAux, h0, if_false, List.append_assoc, List.cons_append,
          List.nil_append]
        rw [ih (n / 10) acc (Char.ofNat (48 + n % 10) :: rest) hdiv]
        simp only [parseDigitsAcc, hdig, if_true, htn]
        have harg : (acc * 10 ^ (natDigitsAux fuel (n / 10)).length + n / 10) * 10
            + (48 + n % 10 - 48)
            = acc * 10 ^ (natDigitsAux fuel (n / 10) ++ [Char.ofNat (48 + n % 10)]).length
              + n := by
          simp only [List.length_append, List.length_cons, List.length_nil]
          have := Nat.div_add_mod n 10
          ring_nf
          omega
        rw [harg]

theorem natDigitsAux_digits :
    ∀ fuel n c, c ∈ natDigitsAux fuel n → c.isDigit = true := by
  intro fuel
  induction fuel with
  | zero => intro n c h; simp [natDigitsAux] at h
  | succ fuel ih =>
      intro n c h
      by_cases h0 : n = 0
      · subst h0; simp [natDigitsAux] at h
      · simp only [natDigitsAux, h0, if_false, List.mem_append, List.mem_singleton] at h
        rcases h with h | h
        · exact ih _ _ h
        · subst h; exact (digitChar_spec (n % 10) (Nat.mod_lt _ (by norm_num))).1

theorem serializeNat_ne_nil (n : Nat) : serializeNat n ≠ [] := by
  by_cases h0 : n = 0
  · subst h0; simp [serializeNat]
  · simp only [serializeNat, h0, if_false, natDigits]
    cases fuel : n + 1 with
    | zero => omega
    | succ f => simp [natDigitsAux, h0]

theorem serializeNat_digits (n : Nat) (c : Char) (h : c ∈ serializeNat n) :
    c.isDigit = true := by
  by_cases h0 : n = 0
  · subst h0; simp only [serializeNat, if_true, List.mem_singleton] at h; subst h; decide
  · simp only [serializeNat, h0, if_false, natDigits] at h
    exact natDigitsAux_digits _ _ _ h

theorem parseDigitsAcc_serializeNat (n : Nat) (rest : List Char)
    (h : headIsDigit rest = false) :
    parseDigitsAcc 0 (serializeNat n ++ rest) = (n, rest) := by
  by_cases h0 : n = 0
  · subst h0
    simp only [serializeNat, if_true, List.cons_append, List.nil_append, parseDigitsAcc]
    norm_num
    exact parseDigitsAcc_stop 0 rest h
  · have hlt : n < 10 ^ (n + 1) := by
      calc n < 10 ^ n := Nat.lt_pow_self (by norm_num) n
        _ ≤ 10 ^ (n + 1) := Nat.pow_le_pow_right (by norm_num) (Nat.le_succ n)
    simp only [serializeNat, h0, if_false, natDigits]
    rw [natDigitsAux_parse (n + 1) n 0 rest hlt]
    simp only [Nat.zero_mul, Nat.zero_add]
    exact parseDigitsAcc_stop n rest h

theorem isDigit_not_ws (c : Char) (h : c.isDigit = true) : isWsChar c = false := by
  simp only [isWsChar, Bool.or_eq_false_iff, decide_eq_false_iff_not]
  refine ⟨⟨⟨?_, ?_⟩, ?_⟩, ?_⟩ <;> rintro rfl <;> exact absurd h (by decide)

theorem isDigit_ne_minus (c : Char) (h : c.isDigit = true) : (c = '-') = False := by
  simp only [eq_iff_iff, iff_false]
  rintro rfl; exact absurd h (by decide)

theorem isDigit_ne_plus (c : Char) (h : c.isDigit = true) : (c = '+') = False := by
  simp only [eq_iff_iff, iff_false]
  rintro rfl; exact absurd h (by decide)

theorem skipWs_serializeNat (n : Nat) (rest : List Char) :
    skipWs (serializeNat n ++ rest) = serializeNat n ++ rest := by
  cases hs : serializeNat n with
  | nil => exact absurd hs (serializeNat_ne_nil n)
  | cons c cs =>
      have hc : c.isDigit = true := serializeNat_digits n c (by rw [hs]; exact List.mem_cons_self _ _)
      simp [skipWs, List.dropWhile, isDigit_not_ws c hc]

theorem parseSigned_serializeNat (n : Nat) (rest : List Char)
    (h : headIsDigit rest = false) :
    parseSigned (serializeNat n ++ rest) = some ((n : Int), rest) := by
  cases hs : serializeNat n with
  | nil => exact absurd hs (serializeNat_ne_nil n)
  | cons c cs =>
      have hc : c.isDigit = true := serializeNat_digits n c (by rw [hs]; exact List.mem_cons_self _ _)
      simp only [List.cons_append, parseSigned, isDigit_ne_minus c hc, isDigit_ne_plus c hc,
        if_false, digitsOrFail, hc, if_true]
      rw [← List.cons_append, ← hs, parseDigitsAcc_serializeNat n rest h]

theorem readInt_serializeInt (i : Int) (rest : List Char) (h : headIsDigit rest = false) :
    readInt (serializeInt i ++ rest) = some (i, rest) := by
  by_cases hneg : i < 0
  · simp only [serializeInt, hneg, if_true, readInt, List.cons_append]
    have hskip : skipWs ('-' :: (serializeNat (-i).toNat ++ rest))
        = '-' :: (serializeNat (-i).toNat ++ rest) := by
      simp [skipWs, List.dropWhile, isWsChar]
    rw [hskip]
    cases hs : serializeNat (-i).toNat with
    | nil => exact absurd hs (serializeNat_ne_nil _)
    | cons c cs =>
        have hc : c.isDigit = true :=
          serializeNat_digits _ c (by rw [hs]; exact List.mem_cons_self _ _)
        simp only [parseSigned, List.cons_append, if_true, digitsOrFail, hc]
        rw [← List.cons_append, ← hs, parseDigitsAcc_serializeNat _ rest h]
        simp only [Option.some.injEq, Prod.mk.injEq]
        exact ⟨by omega, trivial⟩
  · simp only [serializeInt, hneg, if_false, readInt]
    rw [skipWs_serializeNat, parseSigned_serializeNat _ _ h]
    simp only [Option.some.injEq, Prod.mk.injEq]
    exact ⟨by omega, trivial⟩

theorem readInt_cons_space (s : List Char) : readInt (' ' :: s) = readInt s := by
  simp [readInt, skipWs, List.dropWhile, isWsChar]

theorem splitAtDelim_append (d r : List Char) (h : '|' ∉ d) :
    splitAtDelim (d ++ '|' :: r) = some (d, r) := by
  induction d with
  | nil => simp [splitAtDelim]
  | cons c cs ih =>
      have hc : ¬(c = '|') := fun hcc => h (by rw [hcc]; exact List.mem_cons_self _ _)
      have hcs : '|' ∉ cs := fun hm => h (List.mem_cons_of_mem _ hm)
      simp [splitAtDelim, hc, ih hcs]

theorem loadLoop_nil (fuel : Nat) (nid : Int) : loadLoop fuel [] nid = ([], []) := by
  cases fuel with
  | zero => rfl
  | succ f => simp [loadLoop]

/-- Processing one persisted-format line: when the description holds no
delimiter, the loop consumes exactly the line, and either skips it with
the diagnostic (empty description or out-of-range priority) or pushes
the corresponding task and advances the id counter. -/
theorem loadLoop_line (fuel : Nat) (d : List Char) (p comp du : Int) (rest : List Char)
    (nid : Int) (hd : '|' ∉ d) :
    loadLoop (fuel + 1) (mkLine d p comp du ++ rest) nid =
      if d.isEmpty || decide (p < 1) || decide (5 < p) then
        ((loadLoop fuel rest nid).1,
          "Skipping invalid task from file." :: (loadLoop fuel rest nid).2)
      else
        (Task.mk nid d p (comp != 0) du :: (loadLoop fuel rest (nid + 1)).1,
          (loadLoop fuel rest (nid + 1)).2) := by
  have hshape : mkLine d p comp du ++ rest
      = d ++ '|' :: (serializeInt p
          ++ ' ' :: (serializeInt comp ++ ' ' :: (serializeInt du ++ '\n' :: rest))) := by
    simp [mkLine]
  have hnn : (d ++ '|' :: (serializeInt p
      ++ ' ' :: (serializeInt comp ++ ' ' :: (serializeInt du ++ '\n' :: rest)))) ≠ [] := by
    cases d <;> simp
  have hp : readInt (serializeInt p
        ++ ' ' :: (serializeInt comp ++ ' ' :: (serializeInt du ++ '\n' :: rest)))
      = some (p, ' ' :: (serializeInt comp ++ ' ' :: (serializeInt du ++ '\n' :: rest))) :=
    readInt_serializeInt _ _ (by rfl)
  have hcomp : readInt (' ' :: (serializeInt comp ++ ' ' :: (serializeInt du ++ '\n' :: rest)))
      = some (comp, ' ' :: (serializeInt du ++ '\n' :: rest)) := by
    rw [readInt_cons_space]; exact readInt_serializeInt _ _ (by rfl)
  have hdu : readInt (' ' :: (serializeInt du ++ '\n' :: rest)) = some (du, '\n' :: rest) := by
    rw [readInt_cons_space]; exact readInt_serializeInt _ _ (by rfl)
  rw [hshape]
  simp only [loadLoop, if_neg hnn, splitAtDelim_append _ _ hd, hp, hcomp, hdu]
  simp [ignoreThroughNl]

theorem reNumber_taskData (ts : List Task) :
    ∀ n, (reNumber n ts).map taskData = ts.map taskData := by
  induction ts with
  | nil => intro n; rfl
  | cons t ts ih => intro n; simp [reNumber, taskData, ih]

theorem reNumber_length (ts : List Task) : ∀ n, (reNumber n ts).length = ts.length := by
  induction ts with
  | nil => intro n; rfl
  | cons t ts ih => intro n; simp [reNumber, ih]

/-- Reloading the exact stream the save loop wrote for an all-valid,
delimiter-free collection reproduces the collection (with sequential
ids), and emits no diagnostic. -/
theorem loadLoop_saveLoop (ts : List Task)
    (h : ∀ t ∈ ts, validateTask t.description t.priority = true ∧ '|' ∉ t.description) :
    ∀ fuel nid, ts.length < fuel → loadLoop fuel (saveLoop ts).1 nid = (reNumber nid ts, []) := by
  induction ts with
  | nil =>
      intro fuel nid _
      simp [saveLoop, reNumber, loadLoop_nil]
  | cons t ts ih =>
      intro fuel nid hf
      obtain ⟨hv, hdl⟩ := h t (List.mem_cons_self _ _)
      have hrest : ∀ u ∈ ts, validateTask u.description u.priority = true ∧ '|' ∉ u.description :=
        fun u hu => h u (List.mem_cons_of_mem _ hu)
      cases fuel with
      | zero => omega
      | succ fuel =>
          have hsl : (saveLoop (t :: ts)).1 = serializeTask t ++ (saveLoop ts).1 := by
            simp [saveLoop, hv]
          have hv' := hv
          simp only [validateTask, Bool.and_eq_true, Bool.not_eq_true',
            decide_eq_true_eq] at hv'
          obtain ⟨hne, hp1, hp5⟩ := hv'
          rw [hsl, serializeTask, loadLoop_line fuel _ _ _ _ _ _ hdl]
          have hcond : (t.description.isEmpty || decide (t.priority < 1)
              || decide (5 < t.priority)) = false := by
            rw [hne, decide_eq_false (by omega), decide_eq_false (by omega)]
            rfl
          rw [if_neg (by simp [hcond])]
          rw [ih hrest fuel (nid + 1) (by simp at hf; omega)]
          have hcompl : ((if t.completed then (1 : Int) else 0) != 0) = t.completed := by
            cases t.completed <;> rfl
          have htask : Task.mk nid t.description t.priority t.completed t.dueDate
              = { t with id := nid } := by
            cases t; rfl
          rw [hcompl, htask]
          rfl

theorem saveLoop_length (ts : List Task)
    (h : ∀ t ∈ ts, validateTask t.description t.priority = true) :
    ts.length ≤ (saveLoop ts).1.length := by
  induction ts with
  | nil => simp
  | cons t ts ih =>
      have hv := h t (List.mem_cons_self _ _)
      have hrest := fun u hu => h u (List.mem_cons_of_mem _ hu)
      have h1 : 1 ≤ (serializeTask t).length := by
        simp [serializeTask, mkLine]
        omega
      simp only [saveLoop, hv, if_true, List.length_cons, List.length_append]
      have := ih hrest
      omega

/-- Whatever the file content, the ids of the tasks the load loop
produces are consecutive, starting at the value of the id counter when
the loop began: they are re-derived from line order, never read from
the stream. -/
theorem loadLoop_ids :
    ∀ fuel s nid, ((loadLoop fuel s nid).1).map (fun t => t.id)
      = intSeq nid ((loadLoop fuel s nid).1).length := by
  intro fuel
  induction fuel with
  | zero => intro s nid; simp [loadLoop, intSeq]
  | succ fuel ih =>
      intro s nid
      simp only [loadLoop]
      repeat' split
      all_goals simp_all [intSeq]

/-- The maxID scan over a block of consecutive ids starting at n finds
the last id (or keeps the accumulator when the block is empty). -/
theorem maxId_seq :
    ∀ (ts : List Task) (n acc : Int), ts.map (fun t => t.id) = intSeq n ts.length →
      acc < n →
      ts.foldl (fun m t => if t.id > m then t.id else m) acc
        = if ts.isEmpty then acc else n + ts.length - 1 := by
  intro ts
  induction ts with
  | nil => intro n acc _ _; simp
  | cons t ts ih =>
      intro n acc hids hacc
      simp only [List.map_cons, List.length_cons, intSeq, List.cons.injEq] at hids
      obtain ⟨h1, h2⟩ := hids
      simp only [List.foldl_cons]
      have hstep : (if t.id > acc then t.id else acc) = n := by
        rw [h1]; simp [hacc]
      rw [hstep, ih (n + 1) n h2 (by omega)]
      by_cases hts : ts.isEmpty
      · have : ts = [] := by simpa [List.isEmpty_iff] using hts
        subst this
        simp
      · simp only [hts, if_false, List.isEmpty_cons, List.length_cons]
        push_cast
        omega

/-! ### Lemmas about update -/

theorem applyCompDue_id (t : Task) (oc : Option Bool) (odu : Option Int) :
    (applyCompDue t oc odu).id = t.id := by
  cases oc <;> cases odu <;> rfl

theorem applyPrioStage_id (t : Task) (op : Option Int) (oc : Option Bool) (odu : Option Int) :
    (applyPrioStage t op oc odu).id = t.id := by
  cases op with
  | none => exact applyCompDue_id _ _ _
  | some p =>
      simp only [applyPrioStage]
      split
      · exact applyCompDue_id _ _ _
      · rfl

theorem updateFields_id (t : Task) (od : Option (List Char)) (op : Option Int)
    (oc : Option Bool) (odu : Option Int) : (updateFields t od op oc odu).id = t.id := by
  cases od with
  | none => exact applyPrioStage_id _ _ _ _
  | some d =>
      simp only [updateFields]
      split
      · exact applyPrioStage_id _ _ _ _
      · rfl

theorem updateTaskList_ids (i : Int) (od : Option (List Char)) (op : Option Int)
    (oc : Option Bool) (odu : Option Int) :
    ∀ ts t', t' ∈ updateTaskList i od op oc odu ts → ∃ t ∈ ts, t'.id = t.id := by
  intro ts
  induction ts with
  | nil => intro t' h; simp [updateTaskList] at h
  | cons t ts ih =>
      intro t' h
      simp only [updateTaskList] at h
      by_cases hid : t.id = i
      · rw [if_pos hid] at h
        rcases List.mem_cons.1 h with h | h
        · exact ⟨t, List.mem_cons_self _ _, by rw [h]; exact updateFields_id _ _ _ _ _⟩
        · exact ⟨t', List.mem_cons_of_mem _ h, rfl⟩
      · rw [if_neg hid] at h
        rcases List.mem_cons.1 h with h | h
        · exact ⟨t, List.mem_cons_self _ _, by rw [h]⟩
        · obtain ⟨u, hu, he⟩ := ih t' h
          exact ⟨u, List.mem_cons_of_mem _ hu, he⟩

theorem updateTaskList_append (i : Int) (od : Option (List Char)) (op : Option Int)
    (oc : Option Bool) (odu : Option Int) (pre rest : List Task)
    (h : ∀ u ∈ pre, u.id ≠ i) :
    updateTaskList i od op oc odu (pre ++ rest) = pre ++ updateTaskList i od op oc odu rest := by
  induction pre with
  | nil => rfl
  | cons u pre ih =>
      have hu : u.id ≠ i := h u (List.mem_cons_self _ _)
      simp only [List.cons_append, updateTaskList, if_neg hu, List.append_eq]
      rw [ih (fun v hv => h v (List.mem_cons_of_mem _ hv))]

/-! ### Preservation of the id invariant by every menu operation -/

theorem addTask_ok (s : Store) (d : List Char) (p du : Int) (hv : validateTask d p = true) :
    addTask s d p du
      = { nextId := s.nextId + 1, tasks := s.tasks ++ [Task.mk s.nextId d p false du] } := by
  simp [addTask, hv]

theorem addTask_fail (s : Store) (d : List Char) (p du : Int)
    (hv : validateTask d p = false) : addTask s d p du = s := by
  simp [addTask, hv]

theorem menuStep_inv {a b : Store × List Int} (hstep : MenuStep a b)
    (hinv : IdInv a.1 a.2) : IdInv b.1 b.2 := by
  obtain ⟨s1, t1⟩ := a
  obtain ⟨s2, t2⟩ := b
  obtain ⟨h1, h2, h3⟩ := hinv
  cases hstep with
  | addOk s tr d p du hv =>
      rw [addTask_ok s1 d p du hv]
      refine ⟨?_, ?_, ?_⟩
      · intro i hi
        show i < s1.nextId + 1
        rcases List.mem_append.1 hi with hi | hi
        · exact lt_trans (h1 i hi) (lt_add_one _)
        · simp only [List.mem_singleton] at hi; subst hi; exact lt_add_one _
      · intro t ht
        show t.id < s1.nextId + 1
        rcases List.mem_append.1 ht with ht | ht
        · exact lt_trans (h2 t ht) (lt_add_one _)
        · simp only [List.mem_singleton] at ht; subst ht; exact lt_add_one _
      · rw [List.pairwise_append]
        exact ⟨h3, List.pairwise_singleton _ _,
          fun x hx y hy => by simp only [List.mem_singleton] at hy; subst hy; exact h1 x hx⟩
  | addFail s tr d p du hv =>
      rw [addTask_fail s1 d p du hv]
      exact ⟨h1, h2, h3⟩
  | upd s tr i od op oc odu =>
      refine ⟨h1, ?_, h3⟩
      intro t' ht'
      have ht'' : t' ∈ updateTaskList i od op oc odu s1.tasks := ht'
      obtain ⟨t, ht, he⟩ := updateTaskList_ids i od op oc odu s1.tasks t' ht''
      show t'.id < s1.nextId
      rw [he]
      exact h2 t ht
  | del s tr i =>
      refine ⟨h1, ?_, h3⟩
      intro t ht
      have ht' : t ∈ s1.tasks.filter (fun u => u.id != i) := ht
      exact h2 t (List.mem_of_mem_filter ht')
  | sortP s tr asc l' hsort =>
      exact ⟨h1, fun t ht => h2 t (hsort.1.mem_iff.1 ht), h3⟩
  | sortD s tr asc l' hsort =>
      exact ⟨h1, fun t ht => h2 t (hsort.1.mem_iff.1 ht), h3⟩
  | save s tr b =>
      cases b <;> exact ⟨h1, h2, h3⟩

/-! ### Claim C1 — atomicity of Update -/

/-- C1 counterexample: updating task 1 of a one-task store with a valid
new description ['b'] and the invalid priority 9 does NOT leave the
record unchanged — the description change is committed (and the
priority stays 3), contradicting the claimed all-or-nothing behavior. -/
theorem claim1_update_not_atomic_cex :
    (updateTask ⟨2, [Task.mk 1 ['a'] 3 false 0]⟩ 1 (some ['b']) (some 9) none none).tasks
      = [Task.mk 1 ['b'] 3 false 0]
    ∧ Task.mk 1 ['b'] 3 false 0 ≠ Task.mk 1 ['a'] 3 false 0 :=
  ⟨rfl, by decide⟩

/-- C1 (amended): Update applies fields sequentially (description, then
priority, then completed, then dueDate), each validated immediately
before being applied, and a validation failure aborts the remaining
fields while keeping the changes already applied.  In particular, an
update of the first record matching the id that provides a valid new
description and an invalid priority commits the new description and
leaves priority, completed and dueDate unchanged. -/
theorem claim1_update_sequential (n : Int) (pre post : List Task) (t : Task)
    (d : List Char) (p : Int) (oc : Option Bool) (odu : Option Int)
    (hpre : ∀ u ∈ pre, u.id ≠ t.id)
    (hdesc : validateTask d t.priority = true)
    (hprio : validateTask d p = false) :
    (updateTask ⟨n, pre ++ t :: post⟩ t.id (some d) (some p) oc odu).tasks
      = pre ++ { t with description := d } :: post := by
  show updateTaskList t.id (some d) (some p) oc odu (pre ++ t :: post)
      = pre ++ { t with description := d } :: post
  rw [updateTaskList_append _ _ _ _ _ _ _ hpre]
  simp only [updateTaskList, if_pos rfl]
  congr 1
  simp only [updateFields, hdesc, if_true, applyPrioStage]
  have hc : validateTask ({ t with description := d }).description p = false := hprio
  rw [hc]
  simp

/-- C1 witness: the amended behavior at a concrete input. -/
theorem claim1_update_sequential_w :
    (∀ u ∈ ([] : List Task), u.id ≠ (Task.mk 1 ['a'] 3 false 0).id)
    ∧ validateTask ['b'] (Task.mk 1 ['a'] 3 false 0).priority = true
    ∧ validateTask ['b'] 9 = false
    ∧ (updateTask ⟨2, [] ++ Task.mk 1 ['a'] 3 false 0 :: []⟩ (Task.mk 1 ['a'] 3 false 0).id
        (some ['b']) (some 9) none none).tasks
      = [] ++ { Task.mk 1 ['a'] 3 false 0 with description := ['b'] } :: [] :=
  ⟨by decide, by decide, by decide,
    claim1_update_sequential 2 [] [] (Task.mk 1 ['a'] 3 false 0) ['b'] 9 none none
      (by decide) (by decide) (by decide)⟩

/-! ### Claim C2 — Load on a missing file -/

/-- C2 counterexample: loading from an unopenable path starting from a
store holding one task leaves the collection non-empty (the early
return never clears it), so Load does not always replace the in-memory
state with the file-derived (here: empty) collection.  No message is
emitted, which is the part of the claim that does hold. -/
theorem claim2_load_missing_cex :
    (loadTasksFromFile ⟨2, [Task.mk 1 ['a'] 3 false 0]⟩ none).1.tasks ≠ []
    ∧ (loadTasksFromFile ⟨2, [Task.mk 1 ['a'] 3 false 0]⟩ none).2 = [] :=
  ⟨by decide, rfl⟩

/-- C2 (amended): Load on a path that cannot be opened succeeds without
emitting a message and leaves the in-memory state (collection and
next-id counter) exactly as it was — it does not clear it.  Only when
the file opens is the in-memory state replaced: the result is then
determined by the file content and the next-id counter alone,
independent of the previous collection. -/
theorem claim2_load_missing_keeps_state (s : Store) (ts' : List Task) (content : List Char) :
    loadTasksFromFile s none = (s, [])
    ∧ loadTasksFromFile ⟨s.nextId, ts'⟩ (some content) = loadTasksFromFile s (some content) :=
  ⟨rfl, rfl⟩

/-! ### Claim C3 — partial-failure tolerance of the load loop -/

/-- C3 counterexample: in a file whose second line has a non-parseable
priority field ("x"), the failed extraction breaks out of the whole
loop: only the first line is loaded, the well-formed third line is
lost, and no diagnostic is emitted. -/
theorem claim3_bad_trailer_aborts_cex :
    ((loadTasksFromFile ⟨1, []⟩
        (some ("good|3 0 100\nbad|x 0 100\ngood2|2 0 200\n".toList))).1.tasks.map
          (fun t => t.description)
      = ["good".toList])
    ∧ (loadTasksFromFile ⟨1, []⟩
        (some ("good|3 0 100\nbad|x 0 100\ngood2|2 0 200\n".toList))).2 = [] :=
  ⟨rfl, rfl⟩

/-- C3 (amended): a line whose three numeric fields parse but whose
content is semantically invalid (empty description, or priority outside
1–5) is skipped with the diagnostic and processing continues, so every
well-formed line after it is still loaded; but a line whose numeric
trailer fails to parse breaks the loop and silently abandons the rest
of the file (shown by the counterexample). -/
theorem claim3_semantic_skip_continues (d : List Char) (p comp du : Int) (ts : List Task)
    (hd : '|' ∉ d) (hbad : d = [] ∨ p < 1 ∨ 5 < p)
    (hts : ∀ t ∈ ts, validateTask t.description t.priority = true ∧ '|' ∉ t.description) :
    ((loadTasksFromFile ⟨1, []⟩
        (some (mkLine d p comp du ++ (saveLoop ts).1))).1.tasks.map taskData
      = ts.map taskData)
    ∧ (loadTasksFromFile ⟨1, []⟩ (some (mkLine d p comp du ++ (saveLoop ts).1))).2
      = ["Skipping invalid task from file."] := by
  have hcond : (d.isEmpty || decide (p < 1) || decide (5 < p)) = true := by
    rcases hbad with h | h | h
    · subst h; rfl
    · simp [h]
    · simp [h]
  have hmk : 1 ≤ (mkLine d p comp du).length := by
    simp [mkLine]
    omega
  have hsc : ts.length ≤ (saveLoop ts).1.length :=
    saveLoop_length ts (fun t ht => (hts t ht).1)
  have hfuel : ts.length < (mkLine d p comp du ++ (saveLoop ts).1).length := by
    rw [List.length_append]
    omega
  have hstep := loadLoop_line ((mkLine d p comp du ++ (saveLoop ts).1).length) d p comp du
    ((saveLoop ts).1) 1 hd
  rw [if_pos (by simp [hcond])] at hstep
  rw [loadLoop_saveLoop ts hts _ 1 hfuel] at hstep
  simp only [loadTasksFromFile, hstep]
  exact ⟨reNumber_taskData ts 1, trivial⟩

/-- C3 witness: a concrete out-of-range-priority line followed by one
valid line — the valid line is loaded, the bad one is skipped with the
diagnostic. -/
theorem claim3_semantic_skip_continues_w :
    ('|' ∉ ['x', 'y'])
    ∧ ((['x', 'y'] : List Char) = [] ∨ (9 : Int) < 1 ∨ 5 < (9 : Int))
    ∧ (∀ t ∈ [Task.mk 7 ['o', 'k'] 2 false 3],
        validateTask t.description t.priority = true ∧ '|' ∉ t.description)
    ∧ ((loadTasksFromFile ⟨1, []⟩
          (some (mkLine ['x', 'y'] 9 0 5
            ++ (saveLoop [Task.mk 7 ['o', 'k'] 2 false 3]).1))).1.tasks.map taskData
        = [Task.mk 7 ['o', 'k'] 2 false 3].map taskData)
    ∧ (loadTasksFromFile ⟨1, []⟩
          (some (mkLine ['x', 'y'] 9 0 5
            ++ (saveLoop [Task.mk 7 ['o', 'k'] 2 false 3]).1))).2
        = ["Skipping invalid task from file."] := by
  have h := claim3_semantic_skip_continues ['x', 'y'] 9 0 5 [Task.mk 7 ['o', 'k'] 2 false 3]
    (by decide) (by decide) (by decide)
  exact ⟨by decide, by decide, by decide, h.1, h.2⟩

/-! ### Claim C4 — ids re-derived from line order on load -/

/-- C4: loading any file content from the program's start-up state
(nextId = 1, empty collection, the only state in which main.cpp calls
the loader) gives the loaded tasks the fresh consecutive ids
1, 2, ..., N in file order — whatever numbers appear in the file — and
afterwards the next-id counter equals maxID + 1 over the loaded tasks,
which is N + 1. -/
theorem claim4_load_ids_from_line_order (content : List Char) :
    ((loadTasksFromFile ⟨1, []⟩ (some content)).1.tasks.map (fun t => t.id)
      = intSeq 1 (loadTasksFromFile ⟨1, []⟩ (some content)).1.tasks.length)
    ∧ (loadTasksFromFile ⟨1, []⟩ (some content)).1.nextId
      = maxId (loadTasksFromFile ⟨1, []⟩ (some content)).1.tasks + 1
    ∧ (loadTasksFromFile ⟨1, []⟩ (some content)).1.nextId
      = ((loadTasksFromFile ⟨1, []⟩ (some content)).1.tasks.length : Int) + 1 := by
  simp only [loadTasksFromFile]
  have hids := loadLoop_ids (content.length + 1) content 1
  refine ⟨hids, trivial, ?_⟩
  have hmax := maxId_seq ((loadLoop (content.length + 1) content 1).1) 1 0 hids (by norm_num)
  show maxId (loadLoop (content.length + 1) content 1).1 + 1 = _
  rw [maxId, hmax]
  by_cases he : (loadLoop (content.length + 1) content 1).1.isEmpty
  · have hnil : (loadLoop (content.length + 1) content 1).1 = [] := by
      simpa [List.isEmpty_iff] using he
    simp [he, hnil]
  · simp only [he, if_false]
    have hpos : (loadLoop (content.length + 1) content 1).1.length ≠ 0 := by
      intro h0
      rw [List.length_eq_zero] at h0
      rw [h0] at he
      simp at he
    push_cast
    omega

/-! ### Claim C5 — sorting: sorted yes, stable no -/

/-- C5 counterexample: for two distinct tasks of equal priority,
reversing them is an outcome std::sort is allowed to produce for the
code's comparator (it is a permutation that is sorted with respect to
the comparator), yet it does not preserve the relative order of the two
equal-priority tasks — the code (which calls std::sort, not
std::stable_sort) does not guarantee the claimed stability. -/
theorem claim5_sort_not_stable_cex :
    sortTasksByPrioritySpec true [Task.mk 1 ['a'] 3 false 0, Task.mk 2 ['b'] 3 false 0]
      [Task.mk 2 ['b'] 3 false 0, Task.mk 1 ['a'] 3 false 0]
    ∧ (Task.mk 1 ['a'] 3 false 0).priority = (Task.mk 2 ['b'] 3 false 0).priority
    ∧ ([Task.mk 2 ['b'] 3 false 0, Task.mk 1 ['a'] 3 false 0]
        ≠ [Task.mk 1 ['a'] 3 false 0, Task.mk 2 ['b'] 3 false 0]) := by
  refine ⟨⟨List.Perm.swap _ _ _, ?_⟩, rfl, by decide⟩
  refine List.Pairwise.cons ?_ (List.pairwise_singleton _ _)
  intro b hb
  simp only [List.mem_singleton] at hb
  subst hb
  rfl

/-- C5 (amended): every outcome the code's std::sort calls permit is a
permutation of the collection ordered by the comparator — ascending
priority order is non-decreasing rank (Highest, rank 1, first),
descending is non-increasing; likewise for due dates — but the relative
order of tasks with equal key is not guaranteed (see the
counterexample). -/
theorem claim5_sort_sorted_by_comparator (asc : Bool) (l l' m m' : List Task)
    (hp : sortTasksByPrioritySpec asc l l') (hdd : sortTasksByDueDateSpec asc m m') :
    (List.Perm l' l
      ∧ (asc = true → l'.Pairwise (fun a b => a.priority ≤ b.priority))
      ∧ (asc = false → l'.Pairwise (fun a b => b.priority ≤ a.priority)))
    ∧ (List.Perm m' m
      ∧ (asc = true → m'.Pairwise (fun a b => a.dueDate ≤ b.dueDate))
      ∧ (asc = false → m'.Pairwise (fun a b => b.dueDate ≤ a.dueDate))) := by
  obtain ⟨hperm, hpw⟩ := hp
  obtain ⟨hperm2, hpw2⟩ := hdd
  refine ⟨⟨hperm, ?_, ?_⟩, hperm2, ?_, ?_⟩ <;> intro hasc <;> subst hasc
  · exact hpw.imp (fun h => by simp [prioLess] at h; omega)
  · exact hpw.imp (fun h => by simp [prioLess] at h; omega)
  · exact hpw2.imp (fun h => by simp [dueLess] at h; omega)
  · exact hpw2.imp (fun h => by simp [dueLess] at h; omega)

/-- C5 witness: the amended statement applied to singleton sorts. -/
theorem claim5_sort_sorted_by_comparator_w :
    sortTasksByPrioritySpec true [Task.mk 1 ['a'] 3 false 0] [Task.mk 1 ['a'] 3 false 0]
    ∧ sortTasksByDueDateSpec true [Task.mk 1 ['a'] 3 false 0] [Task.mk 1 ['a'] 3 false 0]
    ∧ List.Perm [Task.mk 1 ['a'] 3 false 0] [Task.mk 1 ['a'] 3 false 0]
    ∧ ([Task.mk 1 ['a'] 3 false 0].Pairwise (fun a b => a.priority ≤ b.priority)) := by
  have hsp : sortTasksByPrioritySpec true [Task.mk 1 ['a'] 3 false 0]
      [Task.mk 1 ['a'] 3 false 0] :=
    ⟨List.Perm.refl _, List.pairwise_singleton _ _⟩
  have hsd : sortTasksByDueDateSpec true [Task.mk 1 ['a'] 3 false 0]
      [Task.mk 1 ['a'] 3 false 0] :=
    ⟨List.Perm.refl _, List.pairwise_singleton _ _⟩
  have h := claim5_sort_sorted_by_comparator true _ _ _ _ hsp hsd
  exact ⟨hsp, hsd, h.1.1, h.1.2.1 rfl⟩

/-! ### Claim C6 — save/load round trip -/

/-- C6: Save then Load round-trips the collection: saving any store of
valid tasks whose descriptions avoid the '|' delimiter and loading the
written stream from the start-up state yields exactly as many tasks,
with the same descriptions, priorities, completion flags and due dates
in the same order (ids are renumbered by line order).  The empty
collection is the N = 0 instance. -/
theorem claim6_save_load_round_trip (nid : Int) (ts : List Task)
    (h : ∀ t ∈ ts, validateTask t.description t.priority = true ∧ '|' ∉ t.description) :
    ((loadTasksFromFile ⟨1, []⟩ ((saveTasksToFile ⟨nid, ts⟩ true).2.1)).1.tasks.map taskData
      = ts.map taskData)
    ∧ (loadTasksFromFile ⟨1, []⟩ ((saveTasksToFile ⟨nid, ts⟩ true).2.1)).1.tasks.length
      = ts.length := by
  have hopen : (saveTasksToFile ⟨nid, ts⟩ true).2.1 = some (saveLoop ts).1 := rfl
  rw [hopen]
  have hfuel : ts.length < (saveLoop ts).1.length + 1 :=
    Nat.lt_succ_of_le (saveLoop_length ts (fun t ht => (h t ht).1))
  have hload := loadLoop_saveLoop ts h ((saveLoop ts).1.length + 1) 1 hfuel
  simp only [loadTasksFromFile, hload]
  exact ⟨reNumber_taskData ts 1, reNumber_length ts 1⟩

/-- C6 witness: a concrete round trip of two tasks (one completed, one
with a negative epoch date, one with a space in its description). -/
theorem claim6_save_load_round_trip_w :
    (∀ t ∈ [Task.mk 5 ['h', 'e', ' ', 'l'] 2 true (-42), Task.mk 9 ['x'] 5 false 0],
      validateTask t.description t.priority = true ∧ '|' ∉ t.description)
    ∧ ((loadTasksFromFile ⟨1, []⟩
          ((saveTasksToFile ⟨3, [Task.mk 5 ['h', 'e', ' ', 'l'] 2 true (-42),
              Task.mk 9 ['x'] 5 false 0]⟩ true).2.1)).1.tasks.map taskData
        = [Task.mk 5 ['h', 'e', ' ', 'l'] 2 true (-42), Task.mk 9 ['x'] 5 false 0].map taskData)
    ∧ (loadTasksFromFile ⟨1, []⟩
          ((saveTasksToFile ⟨3, [Task.mk 5 ['h', 'e', ' ', 'l'] 2 true (-42),
              Task.mk 9 ['x'] 5 false 0]⟩ true).2.1)).1.tasks.length
        = [Task.mk 5 ['h', 'e', ' ', 'l'] 2 true (-42), Task.mk 9 ['x'] 5 false 0].length := by
  have h := claim6_save_load_round_trip 3
    [Task.mk 5 ['h', 'e', ' ', 'l'] 2 true (-42), Task.mk 9 ['x'] 5 false 0] (by decide)
  exact ⟨by decide, h.1, h.2⟩

/-! ### Claim C7 — id assignment across operation sequences -/

/-- C7: along every sequence of menu operations the id-assignment
invariant is preserved: the ghost trace of assigned ids stays strictly
increasing (each successful Add appends the current counter value,
which exceeds every previously assigned id — so ids are never reused),
a successful Add appends exactly one task carrying id = nextId and
increments the counter, and a failed Add (empty description or
out-of-range priority) leaves the store — collection and counter —
entirely unchanged. -/
theorem claim7_monotonic_ids :
    (∀ a b : Store × List Int,
        Relation.ReflTransGen MenuStep a b → IdInv a.1 a.2 → IdInv b.1 b.2)
    ∧ (∀ (s : Store) (d : List Char) (p du : Int), validateTask d p = true →
        addTask s d p du
          = { nextId := s.nextId + 1, tasks := s.tasks ++ [Task.mk s.nextId d p false du] })
    ∧ (∀ (s : Store) (d : List Char) (p du : Int), validateTask d p = false →
        addTask s d p du = s) := by
  refine ⟨?_, addTask_ok, addTask_fail⟩
  intro a b hstar hinv
  induction hstar with
  | refl => exact hinv
  | tail _ hbc ih => exact menuStep_inv hbc ih

/-- C7 witness: one successful add from the start-up state preserves
the invariant, with the assigned id 1 recorded in the trace. -/
theorem claim7_monotonic_ids_w :
    IdInv (addTask ⟨1, []⟩ ['a'] 2 0) [1] ∧ validateTask ['a'] 2 = true := by
  constructor
  · exact claim7_monotonic_ids.1 (⟨1, []⟩, []) (addTask ⟨1, []⟩ ['a'] 2 0, [] ++ [(1 : Int)])
      (Relation.ReflTransGen.single (MenuStep.addOk ⟨1, []⟩ [] ['a'] 2 0 (by decide)))
      ⟨by simp, by simp, List.Pairwise.nil⟩
  · decide

/-! ### Claim C8 — completion percentage -/

/-- C8: the completion percentage is exactly 0 on the empty collection
(the division is never taken there), and on a non-empty collection it
equals 100 * completedCount / totalCount, which lies in [0, 100]. -/
theorem claim8_completion_percentage (s : Store) :
    (s.tasks = [] → displayCompletionPercentage s = 0)
    ∧ (s.tasks ≠ [] →
        displayCompletionPercentage s
            = 100 * (completedCount s.tasks : ℚ) / (s.tasks.length : ℚ)
          ∧ 0 ≤ displayCompletionPercentage s
          ∧ displayCompletionPercentage s ≤ 100) := by
  constructor
  · intro h; simp [displayCompletionPercentage, h]
  · intro h
    have hlen : 0 < s.tasks.length := List.length_pos.2 h
    have hne : s.tasks.isEmpty = false := by simpa [List.isEmpty_iff] using h
    have hc : (completedCount s.tasks : ℚ) ≤ (s.tasks.length : ℚ) := by
      have := List.countP_le_length (l := s.tasks) (p := fun t => t.completed)
      exact_mod_cast this
    have hq : (0 : ℚ) < (s.tasks.length : ℚ) := by exact_mod_cast hlen
    have hrw : displayCompletionPercentage s
        = (completedCount s.tasks : ℚ) / (s.tasks.length : ℚ) * 100 := by
      simp [displayCompletionPercentage, hne]
    refine ⟨?_, ?_, ?_⟩
    · rw [hrw]; ring
    · rw [hrw]; positivity
    · rw [hrw]
      have h1 : (completedCount s.tasks : ℚ) / (s.tasks.length : ℚ) ≤ 1 := by
        rw [div_le_one hq]; exact hc
      have h2 := mul_le_mul_of_nonneg_right h1 (by norm_num : (0 : ℚ) ≤ 100)
      simpa using h2

/-- C8 witness: on 4 tasks with exactly 1 completed the percentage is
exactly 25. -/
theorem claim8_completion_percentage_w :
    (Store.mk 5 [Task.mk 1 ['a'] 1 true 0, Task.mk 2 ['b'] 2 false 0,
        Task.mk 3 ['c'] 3 false 0, Task.mk 4 ['d'] 4 false 0]).tasks ≠ []
    ∧ displayCompletionPercentage
        (Store.mk 5 [Task.mk 1 ['a'] 1 true 0, Task.mk 2 ['b'] 2 false 0,
          Task.mk 3 ['c'] 3 false 0, Task.mk 4 ['d'] 4 false 0]) = 25 := by
  refine ⟨by decide, ?_⟩
  have h := (claim8_completion_percentage
    (Store.mk 5 [Task.mk 1 ['a'] 1 true 0, Task.mk 2 ['b'] 2 false 0,
      Task.mk 3 ['c'] 3 false 0, Task.mk 4 ['d'] 4 false 0])).2 (by decide)
  rw [h.1]
  norm_num [completedCount, List.countP, List.countP.go]

/-! ### Claim C9 — save does not mutate the store -/

/-- C9: saving never changes the in-memory state: the store coming out
of saveTasksToFile is the one that went in, for an openable and for an
unopenable destination alike; in the latter case the failure is
reported and nothing is written. -/
theorem claim9_save_no_mutation (s : Store) (canOpen : Bool) :
    (saveTasksToFile s canOpen).1 = s
    ∧ (saveTasksToFile s false).2.1 = none
    ∧ (saveTasksToFile s false).2.2 = ["Error: Unable to open file for saving."] := by
  refine ⟨?_, rfl, rfl⟩
  cases canOpen <;> rfl

/-! ### Claim C10 — completed parsed as arbitrary integer, nonzero test -/

/-- C10: a line whose completed field is any integer is accepted (the
line is not rejected and no diagnostic is emitted); the loaded task's
completed flag is the nonzero test of that integer — true for any
nonzero value such as 2 or -1, false for 0. -/
theorem claim10_completed_nonzero (d : List Char) (p comp du : Int)
    (hd : '|' ∉ d) (hne : d ≠ []) (hp1 : 1 ≤ p) (hp5 : p ≤ 5) :
    ((loadTasksFromFile ⟨1, []⟩ (some (mkLine d p comp du))).2 = [])
    ∧ (loadTasksFromFile ⟨1, []⟩ (some (mkLine d p comp du))).1.tasks
        = [Task.mk 1 d p (comp != 0) du]
    ∧ ((comp != 0) = true ↔ comp ≠ 0) := by
  have hline := loadLoop_line ((mkLine d p comp du).length) d p comp du [] 1 hd
  rw [List.append_nil] at hline
  have hcond : (d.isEmpty || decide (p < 1) || decide (5 < p)) = false := by
    have hemp : d.isEmpty = false := by simpa [List.isEmpty_iff] using hne
    rw [hemp, decide_eq_false (by omega), decide_eq_false (by omega)]
    rfl
  rw [if_neg (by simp [hcond])] at hline
  rw [loadLoop_nil] at hline
  simp only [loadTasksFromFile, hline]
  exact ⟨trivial, trivial, bne_iff_ne⟩

/-- C10 witness: the line x|3 -7 0 loads one task with completed =
true (-7 is nonzero), with no diagnostic. -/
theorem claim10_completed_nonzero_w :
    ('|' ∉ ['x']) ∧ (['x'] : List Char) ≠ [] ∧ (1 : Int) ≤ 3 ∧ (3 : Int) ≤ 5
    ∧ ((loadTasksFromFile ⟨1, []⟩ (some (mkLine ['x'] 3 (-7) 0))).2 = [])
    ∧ (loadTasksFromFile ⟨1, []⟩ (some (mkLine ['x'] 3 (-7) 0))).1.tasks
        = [Task.mk 1 ['x'] 3 ((-7 : Int) != 0) 0]
    ∧ (((-7 : Int) != 0) = true ↔ (-7 : Int) ≠ 0) := by
  have h := claim10_completed_nonzero ['x'] 3 (-7) 0 (by decide) (by decide)
    (by norm_num) (by norm_num)
  exact ⟨by decide, by decide, by norm_num, by norm_num, h.1, h.2.1, h.2.2⟩

end TodoApp
